import Mathlib

/-!
Shallow embedding of the Solana-address extraction pipeline of
`src/routes.ts` (webhook handler of the sol-twitter-bot repository).

Text is represented as `List Char`.  External collaborators
(the JavaScript `String.prototype.normalize` NFKC step, the on-chain
mint lookup behind `getTokenInfo`, the transaction pipeline, image
download and OCR) are modelled as explicit function parameters or
oracles; everything that is plain string processing in the source is
embedded directly.
-/

/-- Character class of the scanner regex `[1-9A-HJ-NP-Za-km-z]`
(`SOLANA_ADDRESS_REGEX` in `src/routes.ts`): digits 1-9 and the
Base58 letters (no 0, O, I, l). -/
def isBase58Char (c : Char) : Bool :=
  ('1' ≤ c && c ≤ '9') || ('A' ≤ c && c ≤ 'H') || ('J' ≤ c && c ≤ 'N') ||
  ('P' ≤ c && c ≤ 'Z') || ('a' ≤ c && c ≤ 'k') || ('m' ≤ c && c ≤ 'z')

/-- Length of the longest prefix of `s` made of Base58 characters. -/
def b58RunLen : List Char → Nat
  | [] => 0
  | c :: cs => if isBase58Char c then b58RunLen cs + 1 else 0

/-- Fuel-indexed list of the matches that the global JavaScript regex
`/[1-9A-HJ-NP-Za-km-z]\x7b32,44\x7d/g` finds in `s`: leftmost match
first, the greedy quantifier takes `min run 44` characters, and the
search resumes right after the end of the previous match
(non-overlapping), exactly as `String.prototype.match` with a global
regex.  The fuel only serves structural recursion; `regexMatches`
instantiates it with the length of the string, which is always
enough. -/
def regexMatchesAux : Nat → List Char → List (List Char)
  | 0, _ => []
  | _, [] => []
  | fuel + 1, c :: cs =>
      if 32 ≤ b58RunLen (c :: cs) then
        (c :: cs).take (min (b58RunLen (c :: cs)) 44) ::
          regexMatchesAux fuel ((c :: cs).drop (min (b58RunLen (c :: cs)) 44))
      else
        regexMatchesAux fuel cs

/-- All matches of the scanner regex in `s` (the array returned by
`s.match(SOLANA_ADDRESS_REGEX)` in the source, `[]` for `null`). -/
def regexMatches (s : List Char) : List (List Char) :=
  regexMatchesAux s.length s

/-- The sliding-window scan loop of the webhook handler: for every
start offset `i` of the text take `combinedText.slice(i, i + 45)`,
run the regex, and push `match[0]` (the first match of the window)
when the window matched at all. -/
def findMatches (text : List Char) : List (List Char) :=
  (List.range text.length).filterMap
    (fun i => (regexMatches ((text.drop i).take 45)).head?)

/-- The Base58 alphabet used by the `bs58` library
(and hence by `PublicKey.toBase58`). -/
def base58Alphabet : List Char :=
  "123456789ABCDEFGHJKLMNPQRSTUVWXYZabcdefghijkmnopqrstuvwxyz".toList

/-- Index of a character in a list, or `none` when absent. -/
def idxOfChar : List Char → Char → Option Nat
  | [], _ => none
  | a :: rest, c => if c = a then some 0 else (idxOfChar rest c).map (· + 1)

/-- Digit values of a Base58 string; `none` when some character is
outside the alphabet (the `bs58.decode` throw). -/
def base58DigitVals (s : List Char) : Option (List Nat) :=
  s.mapM (idxOfChar base58Alphabet)

/-- Number of leading zero entries of a digit (or byte) list. -/
def countLeadingZeros : List Nat → Nat
  | 0 :: rest => countLeadingZeros rest + 1
  | _ => 0

/-- Value of a big-endian digit list in the given base. -/
def digitsToNat (base : Nat) (ds : List Nat) : Nat :=
  ds.foldl (fun acc d => acc * base + d) 0

/-- Fuel-indexed big-endian base-`b` writer; the fuel only serves
structural recursion and `n` is always enough of it, since the number
of digits of `n` is at most `n`. -/
def natToDigitsAux (b : Nat) : Nat → Nat → List Nat
  | 0, _ => []
  | fuel + 1, n => if n = 0 then [] else natToDigitsAux b fuel (n / b) ++ [n % b]

/-- Minimal big-endian base-256 representation of `n` (empty for 0). -/
def natToBytes (n : Nat) : List Nat :=
  natToDigitsAux 256 n n

/-- Minimal big-endian base-58 representation of `n` (empty for 0). -/
def natToB58Digits (n : Nat) : List Nat :=
  natToDigitsAux 58 n n

/-- Model of `bs58.decode` (the base-x algorithm): every leading `1`
becomes a leading zero byte, the remaining digits are converted as one
big-endian base-58 number; `none` models the decode throw on a
character outside the alphabet. -/
def base58DecodeBytes (s : List Char) : Option (List Nat) :=
  match base58DigitVals s with
  | none => none
  | some ds =>
      some (List.replicate (countLeadingZeros ds) 0 ++ natToBytes (digitsToNat 58 ds))

/-- Model of `bs58.encode`: leading zero bytes become `1` characters,
the rest is converted as one big-endian base-256 number and written in
base 58. -/
def base58EncodeBytes (bytes : List Nat) : List Char :=
  List.replicate (countLeadingZeros bytes) '1' ++
    (natToB58Digits (digitsToNat 256 bytes)).map (fun d => base58Alphabet.getD d '1')

/-- `isValidSolanaAddress` of `src/routes.ts`: `new PublicKey(address)`
decodes the string with `bs58` and requires exactly 32 bytes, then
`publicKey.toBase58() === address` re-encodes and compares; every
failure is swallowed by the `try/catch` and yields `false`. -/
def isValidSolanaAddress (address : List Char) : Bool :=
  match base58DecodeBytes address with
  | none => false
  | some bytes => bytes.length == 32 && base58EncodeBytes bytes == address

example : isValidSolanaAddress (List.replicate 32 '1') = true := by decide

example : isValidSolanaAddress (List.replicate 31 '1' ++ ['2']) = true := by decide

example : isValidSolanaAddress ("abc".toList) = false := by decide

example : regexMatches (List.replicate 45 'a') = [List.replicate 44 'a'] := by decide

/-- The `homoglyphMap` table of `src/routes.ts` as an association
list, in source order: confusable Cyrillic and Greek letters paired
with their Latin equivalents. -/
def homoglyphPairs : List (Char × Char) :=
  [('А', 'A'), ('В', 'B'), ('С', 'C'), ('Е', 'E'), ('Н', 'H'), ('І', 'I'),
   ('Ј', 'J'), ('К', 'K'), ('М', 'M'), ('О', 'O'), ('Р', 'P'), ('Ѕ', 'S'),
   ('Т', 'T'), ('Υ', 'Y'), ('Χ', 'X'), ('Ζ', 'Z'),
   ('а', 'a'), ('е', 'e'), ('о', 'o'), ('р', 'p'), ('с', 'c'), ('у', 'y'),
   ('х', 'x')]

/-- First value bound to `c` in an association list (the JavaScript
object lookup `homoglyphMap[char]`). -/
def lookupHomoglyph : List (Char × Char) → Char → Option Char
  | [], _ => none
  | (k, v) :: rest, c => if c = k then some v else lookupHomoglyph rest c

/-- One character of the homoglyph substitution:
`homoglyphMap[char] || char`. -/
def substChar (c : Char) : Char :=
  (lookupHomoglyph homoglyphPairs c).getD c

/-- `normalizeText` of `src/routes.ts`: NFKC normalization (the
external `String.prototype.normalize`, passed here as the function
parameter `nfkc`) followed by the character-by-character homoglyph
substitution. -/
def normalizeText (nfkc : List Char → List Char) (s : List Char) : List Char :=
  (nfkc s).map substChar

/-- The character set of the JavaScript regex class `\s`. -/
def jsWhitespaceChars : List Char :=
  [' ', '\t', '\n', '\u000b', '\u000c', '\r', '\u00a0', '\u1680',
   '\u2000', '\u2001', '\u2002', '\u2003', '\u2004', '\u2005', '\u2006',
   '\u2007', '\u2008', '\u2009', '\u200a', '\u2028', '\u2029', '\u202f',
   '\u205f', '\u3000', '\ufeff']

/-- Whether `c` matches the JavaScript regex class `\s`. -/
def isJsWhitespace (c : Char) : Bool :=
  decide (c ∈ jsWhitespaceChars)

/-- The preprocessing of the `text` field:
`(req.body.data?.text || "").replace(/\s+/g, "")`.  Replacing every
maximal whitespace run by the empty string deletes exactly the
whitespace characters, so it is embedded as a filter. -/
def stripWhitespace (s : List Char) : List Char :=
  s.filter (fun c => !(isJsWhitespace c))

/-- The combined text scanned by the handler:
`normalizeText(fulltext + " " + text)` where `text` is the
whitespace-stripped `text` field, plus, when an image URL is present
and download and OCR succeeded (`imageText = some t`),
`" " + normalizeText(imageText)`.  A `none` image result models both
the absent image URL and the caught image-processing failure. -/
def combinedTextOf (nfkc : List Char → List Char)
    (fulltext textField : List Char)
    (imageUrl imageText : Option (List Char)) : List Char :=
  match imageUrl, imageText with
  | some _, some t =>
      normalizeText nfkc (fulltext ++ ' ' :: stripWhitespace textField) ++
        ' ' :: normalizeText nfkc t
  | _, _ => normalizeText nfkc (fulltext ++ ' ' :: stripWhitespace textField)

/-- ASCII lowercasing of one character, the fragment of the external
`String.prototype.toLowerCase` relevant to Base58 candidates (which
are ASCII by construction). -/
def toLowerChar (c : Char) : Char :=
  if 'A' ≤ c && c ≤ 'Z' then Char.ofNat (c.toNat + 32) else c

/-- Lowercase form of a candidate (`address.toLowerCase()`). -/
def lowerStr (s : List Char) : List Char :=
  s.map toLowerChar

/-- The static `BLOCKED_TOKENS` list of `src/routes.ts`: the two
uncommented entries, lowercased at definition time exactly as the
source applies `.toLowerCase()` to each literal. -/
def BLOCKED_TOKENS : List (List Char) :=
  [lowerStr ("4Cnk9EPnW5ixfLZatCPJjDB1PUtcRpVVgTQukm9epump".toList),
   lowerStr ("FUAfBo2jgks6gB4Z4LfZkqSZgzNucisEHqnNebaRxM1P".toList)]

/-- The `validAddresses` filter of the handler:
`matches.filter((address) => isValidSolanaAddress(address) &&
!BLOCKED_TOKENS.includes(address.toLowerCase()))`. -/
def filterValid (ms : List (List Char)) : List (List Char) :=
  ms.filter
    (fun a => isValidSolanaAddress a && !(decide (lowerStr a ∈ BLOCKED_TOKENS)))

/-- The validated-address sequence produced from a combined text. -/
def validAddressesOf (combined : List Char) : List (List Char) :=
  filterValid (findMatches combined)

/-- Result of `token.getMintInfo()` on the chain, as seen through the
RPC connection: decimal precision, supply and initialization flag.
The oracle `chain` below returns `none` both for a missing account and
for a thrown RPC error, which `getTokenInfo` treats alike. -/
structure MintInfo where
  decimals : Nat
  supply : Nat
  isInitialized : Bool
deriving DecidableEq

/-- The `TokenInfo` record built by `getTokenInfo` (the source stores
`supply.toString()`, embedded via `Nat.repr`). -/
structure TokenInfo where
  address : List Char
  decimals : Nat
  supply : List Char
  isInitialized : Bool
deriving DecidableEq

/-- `getTokenInfo` of `src/routes.ts` over a chain oracle: a thrown
error is caught and becomes `null`, and a mint whose `decimals` is `0`
(falsy) is also reported as `null`. -/
def getTokenInfo (chain : List Char → Option MintInfo)
    (address : List Char) : Option TokenInfo :=
  match chain address with
  | none => none
  | some info =>
      if info.decimals = 0 then none
      else some ⟨address, info.decimals, (Nat.repr info.supply).toList,
                 info.isInitialized⟩

/-- The `tokenInfoPromises` array: one metadata lookup per element of
the validated-address sequence, in order. -/
def launchedLookups (chain : List Char → Option MintInfo)
    (validAddresses : List (List Char)) : List (Option TokenInfo) :=
  validAddresses.map (getTokenInfo chain)

/-- Deterministic stand-in for `Promise.any(tokenInfoPromises)`:
settles with the first fulfilled promise in list order and rejects
(`none`, the `AggregateError`) exactly when every promise rejects.
Which fulfilled promise wins depends on timing in the source, but the
all-reject outcome is timing-independent. -/
def promiseAny : List (Option TokenInfo) → Option TokenInfo
  | [] => none
  | some t :: _ => some t
  | none :: rest => promiseAny rest

/-- Response message of the `validAddresses.length == 0` branch. -/
def noValidMsg : List Char :=
  "No valid token addresses found".toList

/-- Response message of the final success `res.send`. -/
def processedMsg : List Char :=
  "Successfully processed webhook for Solana addresses".toList

/-- Message of the top-level catch response (the source also attaches
`error.message`; only the fixed part is modelled). -/
def errMsg : List Char :=
  "Error processing webhook".toList

/-- The `source` value sent when the payload carried an image URL. -/
def srcTextAndImage : List Char :=
  "text and image".toList

/-- The `source` value sent when the payload carried no image URL. -/
def srcTextOnly : List Char :=
  "text only".toList

/-- Shape of the webhook response: `success` carries the message and
the optional `source` field (the no-valid-addresses response has no
`source`), `errorResp` is the status-500 error response. -/
inductive WebhookResponse where
  | success (message : List Char) (source : Option (List Char))
  | errorResp (message : List Char)
deriving DecidableEq

/-- The webhook handler of `src/routes.ts` after signature
verification, as a function of the external collaborators: `nfkc` is
`String.prototype.normalize("NFKC")`, `chain` the mint-lookup oracle,
`txOk` whether the external transaction sequence (`getPumpTx`, sign,
send, confirm) completes without throwing, `imageText` the outcome of
image download plus OCR (`none` on absence or failure, both handled
by the same fallback).  A rejection of `Promise.any` and a transaction
throw are both caught by the top-level catch and produce the error
response. -/
def handleWebhook (nfkc : List Char → List Char)
    (chain : List Char → Option MintInfo) (txOk : Bool)
    (user textField fulltext : List Char)
    (imageUrl imageText : Option (List Char)) : WebhookResponse :=
  if 0 < (findMatches (combinedTextOf nfkc fulltext textField imageUrl imageText)).length then
    if 0 < (validAddressesOf (combinedTextOf nfkc fulltext textField imageUrl imageText)).length then
      match promiseAny (launchedLookups chain
          (validAddressesOf (combinedTextOf nfkc fulltext textField imageUrl imageText))) with
      | none => WebhookResponse.errorResp errMsg
      | some _ =>
          if txOk then
            WebhookResponse.success processedMsg
              (some (if imageUrl.isSome then srcTextAndImage else srcTextOnly))
          else WebhookResponse.errorResp errMsg
    else WebhookResponse.success noValidMsg none
  else
    WebhookResponse.success processedMsg
      (some (if imageUrl.isSome then srcTextAndImage else srcTextOnly))

/-- The needle of `address.includes("pump")`. -/
def pumpNeedle : List Char :=
  "pump".toList

/-- Whether `needle` starts `hay` (prefix test used by the substring
test below). -/
def startsWithSeq : List Char → List Char → Bool
  | [], _ => true
  | _ :: _, [] => false
  | n :: ns, h :: hs => n = h && startsWithSeq ns hs

/-- The JavaScript `hay.includes(needle)` substring test. -/
def containsSub (needle : List Char) : List Char → Bool
  | [] => needle.isEmpty
  | h :: hs => startsWithSeq needle (h :: hs) || containsSub needle hs

/-- The user identifier singled out by `getAmount`. -/
def daniil : List Char :=
  "DaniilP86141".toList

/-- `getAmount` of `src/routes.ts`: the trade size depends on the
user and on whether the resolved address contains `"pump"`. -/
def getAmount (address user : List Char) : Nat :=
  if user = daniil then
    if containsSub pumpNeedle address then 10000000 else 100000
  else
    if containsSub pumpNeedle address then 500000000 else 1000000000

/-- Modelled from the spec: the external Unicode compatibility (NFKC)
normalization performed by `String.prototype.normalize("NFKC")`, which
is not part of the repository.  This executable fragment is faithful
to the Unicode algorithm on the codepoints it mentions: the canonical
pair U+0061 (`a`) followed by U+0301 (combining acute) composes to the
primary composite U+00E1 (`á`), while U+0430 (Cyrillic `а`) followed
by U+0301 has no canonical composite and is already NFKC-normal, as is
U+00E1 itself; every other character is left unchanged. -/
def nfkcModel : List Char → List Char
  | 'a' :: c :: rest =>
      if c = '\u0301' then '\u00e1' :: nfkcModel rest
      else 'a' :: nfkcModel (c :: rest)
  | c :: rest => c :: nfkcModel rest
  | [] => []

/-- Concrete 32-character valid address (decodes to 32 zero bytes). -/
def ones32 : List Char :=
  List.replicate 32 '1'

/-- Concrete 32-character valid address (31 zero bytes then `0x01`). -/
def ones31two : List Char :=
  List.replicate 31 '1' ++ ['2']

example : nfkcModel ['а', '\u0301'] = ['а', '\u0301'] := by decide

example : nfkcModel ['a', '\u0301'] = ['\u00e1'] := by decide

example : normalizeText nfkcModel ['а', '\u0301'] = ['a', '\u0301'] := by decide


/-!
Helper lemmas about the scanner, the homoglyph substitution, the
whitespace stripping and the resolver model.
-/

theorem b58RunLen_le (s : List Char) : b58RunLen s ≤ s.length := by
  induction s with
  | nil => simp [b58RunLen]
  | cons c cs ih =>
      simp only [b58RunLen, List.length_cons]
      split
      · omega
      · omega

theorem b58RunLen_append_of_all (A t : List Char)
    (h : ∀ c ∈ A, isBase58Char c = true) :
    b58RunLen (A ++ t) = A.length + b58RunLen t := by
  induction A with
  | nil => simp
  | cons c cs ih =>
      simp only [List.cons_append, b58RunLen, List.length_cons, List.append_eq]
      rw [if_pos (h c (by simp))]
      rw [ih (fun x hx => h x (by simp [hx]))]
      omega

theorem b58RunLen_zero_of_head (t : List Char)
    (h : ∀ c, t.head? = some c → isBase58Char c = false) : b58RunLen t = 0 := by
  cases t with
  | nil => rfl
  | cons c cs => simp [b58RunLen, h c rfl]

theorem head_take_pos (l : List Char) (n : Nat) (h : 0 < n) :
    (l.take n).head? = l.head? := by
  cases l with
  | nil => simp
  | cons a as =>
      cases n with
      | zero => omega
      | succ m => simp [List.take]

theorem regexMatchesAux_eq_nil_of_short (fuel : Nat) (s : List Char)
    (h : s.length < 32) : regexMatchesAux fuel s = [] := by
  induction fuel generalizing s with
  | zero => cases s <;> rfl
  | succ n ih =>
      cases s with
      | nil => rfl
      | cons c cs =>
          have hr : b58RunLen (c :: cs) < 32 :=
            lt_of_le_of_lt (b58RunLen_le _) h
          simp only [regexMatchesAux]
          rw [if_neg (by omega)]
          exact ih cs (by simp only [List.length_cons] at h; omega)

theorem regexMatchesAux_eq_single (fuel : Nat) (s : List Char)
    (h45 : s.length ≤ 45) (m : List Char)
    (hm : m ∈ regexMatchesAux fuel s) : regexMatchesAux fuel s = [m] := by
  induction fuel generalizing s with
  | zero => simp [regexMatchesAux] at hm
  | succ n ih =>
      cases s with
      | nil => simp [regexMatchesAux] at hm
      | cons c cs =>
          by_cases hr : 32 ≤ b58RunLen (c :: cs)
          · have hstep : regexMatchesAux (n + 1) (c :: cs)
                = (c :: cs).take (min (b58RunLen (c :: cs)) 44) ::
                  regexMatchesAux n ((c :: cs).drop (min (b58RunLen (c :: cs)) 44)) := by
              simp only [regexMatchesAux]
              rw [if_pos hr]
            have hdrop : ((c :: cs).drop (min (b58RunLen (c :: cs)) 44)).length < 32 := by
              simp only [List.length_drop, List.length_cons]
              simp only [List.length_cons] at h45
              omega
            rw [hstep, regexMatchesAux_eq_nil_of_short n _ hdrop] at hm ⊢
            simp only [List.mem_singleton] at hm
            rw [hm]
          · have hstep : regexMatchesAux (n + 1) (c :: cs) = regexMatchesAux n cs := by
              simp only [regexMatchesAux]
              rw [if_neg hr]
            rw [hstep] at hm ⊢
            exact ih cs (by simp only [List.length_cons] at h45; omega) hm

theorem mem_findMatches_of_head (text : List Char) (i : Nat) (m : List Char)
    (hi : i < text.length)
    (hm : (regexMatches ((text.drop i).take 45)).head? = some m) :
    m ∈ findMatches text := by
  unfold findMatches
  rw [List.mem_filterMap]
  exact ⟨i, List.mem_range.2 hi, hm⟩

theorem lookupHomoglyph_mem (l : List (Char × Char)) (c v : Char)
    (h : lookupHomoglyph l c = some v) : (c, v) ∈ l := by
  induction l with
  | nil => simp [lookupHomoglyph] at h
  | cons p rest ih =>
      obtain ⟨k, w⟩ := p
      simp only [lookupHomoglyph] at h
      split at h
      · next heq =>
          simp only [Option.some.injEq] at h
          simp [heq, h]
      · exact List.mem_cons_of_mem _ (ih h)

theorem homoglyph_targets_not_keys :
    ∀ p ∈ homoglyphPairs, lookupHomoglyph homoglyphPairs p.2 = none := by decide

theorem homoglyph_targets_not_ws :
    ∀ p ∈ homoglyphPairs, isJsWhitespace p.2 = false := by decide

theorem ws_substChar_fixed : ∀ w ∈ jsWhitespaceChars, substChar w = w := by decide

theorem substChar_idem (c : Char) : substChar (substChar c) = substChar c := by
  cases hl : lookupHomoglyph homoglyphPairs c with
  | none =>
      have h1 : substChar c = c := by unfold substChar; rw [hl]; rfl
      rw [h1]
      exact h1
  | some v =>
      have h1 : substChar c = v := by unfold substChar; rw [hl]; rfl
      have hv : (c, v) ∈ homoglyphPairs := lookupHomoglyph_mem _ _ _ hl
      have h2 : lookupHomoglyph homoglyphPairs v = none :=
        homoglyph_targets_not_keys (c, v) hv
      rw [h1]
      unfold substChar
      rw [h2]
      rfl

theorem substChar_of_ws (w : Char) (hw : isJsWhitespace w = true) :
    substChar w = w :=
  ws_substChar_fixed w (of_decide_eq_true hw)

theorem substChar_eq_ws_iff (w c : Char) (hw : isJsWhitespace w = true) :
    substChar c = w ↔ c = w := by
  constructor
  · intro h
    cases hl : lookupHomoglyph homoglyphPairs c with
    | none =>
        have h1 : substChar c = c := by unfold substChar; rw [hl]; rfl
        rw [h1] at h
        exact h
    | some v =>
        exfalso
        have h1 : substChar c = v := by unfold substChar; rw [hl]; rfl
        have hv : (c, v) ∈ homoglyphPairs := lookupHomoglyph_mem _ _ _ hl
        have h2 : isJsWhitespace v = false := homoglyph_targets_not_ws (c, v) hv
        rw [h1] at h
        rw [h] at h2
        rw [hw] at h2
        exact Bool.noConfusion h2
  · intro h
    rw [h]
    exact substChar_of_ws w hw

theorem count_map_substChar (w : Char) (hw : isJsWhitespace w = true)
    (l : List Char) : (l.map substChar).count w = l.count w := by
  induction l with
  | nil => rfl
  | cons c cs ih =>
      simp only [List.map_cons, List.count_cons, ih]
      by_cases hc : c = w
      · rw [hc, substChar_of_ws w hw]
      · have : substChar c ≠ w := fun h => hc ((substChar_eq_ws_iff w c hw).1 h)
        simp [hc, this]

theorem count_stripWhitespace (w : Char) (hw : isJsWhitespace w = true)
    (l : List Char) : (stripWhitespace l).count w = 0 := by
  rw [List.count_eq_zero]
  intro hmem
  rw [stripWhitespace, List.mem_filter] at hmem
  rw [hw] at hmem
  exact Bool.noConfusion hmem.2

theorem stripWhitespace_erase_ws (u v : List Char) (w : Char)
    (hw : isJsWhitespace w = true) :
    stripWhitespace (u ++ w :: v) = stripWhitespace (u ++ v) := by
  simp only [stripWhitespace, List.filter_append, List.filter_cons, hw]
  rfl

theorem promiseAny_eq_none (l : List (Option TokenInfo))
    (h : ∀ x ∈ l, x = none) : promiseAny l = none := by
  induction l with
  | nil => rfl
  | cons x rest ih =>
      have hx : x = none := h x (by simp)
      subst hx
      simp only [promiseAny]
      exact ih (fun y hy => h y (by simp [hy]))

/-!
Claim theorems.
-/

/-- Claim C3: within each 45-character window of the scan loop, every
substring that the Base58 regex matches ends up in the candidate list.
The loop pushes only `match[0]`, but a window of at most 45 characters
can hold at most one match of length at least 32, so the first match
is every match. -/
theorem window_matches_all_collected (text : List Char) (i : Nat)
    (hi : i < text.length) (m : List Char)
    (hm : m ∈ regexMatches ((text.drop i).take 45)) :
    m ∈ findMatches text := by
  have h45 : ((text.drop i).take 45).length ≤ 45 := by
    rw [List.length_take]
    exact min_le_left _ _
  unfold regexMatches at hm
  have hsingle := regexMatchesAux_eq_single _ _ h45 m hm
  apply mem_findMatches_of_head text i m hi
  unfold regexMatches
  rw [hsingle]
  rfl

/-- Witness for C3 at a concrete input: the window at offset 0 of the
32-ones address matches exactly that address, and the scan collects
it. -/
theorem window_matches_all_collected_witness :
    ones32 ∈ findMatches ones32 :=
  window_matches_all_collected ones32 0 (by decide) ones32 (by decide)

/-- Claim C2, as amended: a valid 32-44 character Base58 address
occurring at an offset where it is not immediately followed by another
Base58 character is always collected by the sliding-window scan (the
window starting exactly at the address matches it in full). -/
theorem scanner_completeness_boundary (pre A post : List Char)
    (hv : isValidSolanaAddress A = true)
    (hall : ∀ c ∈ A, isBase58Char c = true)
    (h32 : 32 ≤ A.length) (h44 : A.length ≤ 44)
    (hpost : ∀ c, post.head? = some c → isBase58Char c = false) :
    A ∈ findMatches (pre ++ A ++ post) := by
  apply mem_findMatches_of_head _ pre.length
  · simp only [List.length_append]
    omega
  · have hwin : ((pre ++ A ++ post).drop pre.length).take 45
        = A ++ post.take (45 - A.length) := by
      rw [List.append_assoc, List.drop_left, List.take_append_eq_append_take,
        List.take_of_length_le (by omega)]
    rw [hwin]
    have hrun : b58RunLen (A ++ post.take (45 - A.length)) = A.length := by
      have hz : b58RunLen (post.take (45 - A.length)) = 0 := by
        apply b58RunLen_zero_of_head
        intro c hc
        apply hpost c
        rw [← head_take_pos post (45 - A.length) (by omega)]
        exact hc
      rw [b58RunLen_append_of_all A _ hall, hz]
      omega
    obtain ⟨a, rest, hw⟩ : ∃ a rest, A ++ post.take (45 - A.length) = a :: rest := by
      cases hA : A with
      | nil => rw [hA] at h32; simp at h32
      | cons x xs => exact ⟨x, xs ++ post.take (45 - A.length), by rw [hA]; rfl⟩
    rw [hw]
    rw [hw] at hrun
    unfold regexMatches
    simp only [List.length_cons]
    simp only [regexMatchesAux]
    rw [if_pos (by omega)]
    simp only [List.head?_cons, Option.some.injEq]
    have hmin : min (b58RunLen (a :: rest)) 44 = A.length := by
      rw [hrun]
      omega
    rw [hmin, ← hw, List.take_left]

/-- Witness for the amended C2 at a concrete input: the valid address
`ones31two` preceded by a Base58 character and followed by nothing is
collected. -/
theorem scanner_completeness_boundary_witness :
    ones31two ∈ findMatches (['z'] ++ ones31two ++ []) :=
  scanner_completeness_boundary ['z'] ones31two [] (by decide) (by decide)
    (by decide) (by decide) (fun c hc => by cases hc)

/-- Counterexample to claim C2 as stated: the valid 32-character
address `ones31two` occurs at offset 0 of the text
`ones31two ++ ['z']`, yet that exact string never appears among the
scanner's candidates, because the greedy match at the window starting
at the address also swallows the following Base58 character `z`. -/
theorem scanner_misses_embedded_address :
    isValidSolanaAddress ones31two = true ∧
    ones31two.length = 32 ∧
    (ones31two ++ ['z']).take 32 = ones31two ∧
    ones31two ∉ findMatches (ones31two ++ ['z']) := by decide

/-- Counterexample to claim C4 as stated: a validated-address sequence
holding the same valid address twice launches two metadata lookups,
not one per distinct address. -/
theorem duplicate_addresses_duplicate_lookups :
    isValidSolanaAddress ones32 = true ∧
    (launchedLookups (fun _ => none) [ones32, ones32]).length = 2 ∧
    [ones32, ones32].dedup.length = 1 ∧
    (launchedLookups (fun _ => none) [ones32, ones32]).length ≠
      [ones32, ones32].dedup.length := by decide

/-- Claim C4, as amended: the resolver issues exactly one metadata
lookup per element of the validated-address sequence, in order
(duplicates included), the i-th lookup querying the i-th address. -/
theorem one_lookup_per_validated_entry (chain : List Char → Option MintInfo)
    (vs : List (List Char)) :
    (launchedLookups chain vs).length = vs.length ∧
    ∀ i : Nat, (launchedLookups chain vs).get? i
      = (vs.get? i).map (getTokenInfo chain) := by
  constructor
  · simp [launchedLookups]
  · intro i
    simp [launchedLookups, List.get?_map]

/-- Claim C5: the address validator is total (a Bool-valued function;
every decode throw of the underlying library is modelled by the
`none` branch and swallowed) and passes exactly when the candidate
decodes to a 32-byte public key whose re-encoding reproduces the
original string. -/
theorem validator_roundtrip_characterization (s : List Char) :
    isValidSolanaAddress s = true ↔
      ∃ bytes, base58DecodeBytes s = some bytes ∧ bytes.length = 32 ∧
        base58EncodeBytes bytes = s := by
  unfold isValidSolanaAddress
  cases h : base58DecodeBytes s with
  | none => simp
  | some bytes => simp [Bool.and_eq_true, beq_iff_eq]

/-- Claim C6: a candidate whose lowercase form is block-listed is
excluded from the validated-address sequence regardless of structural
validity, and for candidates not block-listed the filter keeps exactly
the structurally valid ones. -/
theorem blocklist_filter_spec (ms : List (List Char)) (a : List Char) :
    (lowerStr a ∈ BLOCKED_TOKENS → a ∉ filterValid ms) ∧
    (lowerStr a ∉ BLOCKED_TOKENS →
      (a ∈ filterValid ms ↔ a ∈ ms ∧ isValidSolanaAddress a = true)) := by
  constructor
  · intro hb hmem
    rw [filterValid, List.mem_filter] at hmem
    simp [hb] at hmem
  · intro hb
    rw [filterValid, List.mem_filter]
    simp [hb]

/-- The first block-list entry in its original (mixed-case) spelling. -/
def blocked1 : List Char :=
  "4Cnk9EPnW5ixfLZatCPJjDB1PUtcRpVVgTQukm9epump".toList

/-- Witness for C6 at a concrete input: the first blocked token never
survives the filter. -/
theorem blocklist_filter_spec_witness : blocked1 ∉ filterValid [blocked1] :=
  (blocklist_filter_spec [blocked1] blocked1).1 (by decide)

/-- Counterexample to claim C7 as stated: normalization is not
idempotent on every string.  On Cyrillic `а` (U+0430) followed by the
combining acute U+0301 — an NFKC-normal input — the first pass
substitutes the homoglyph and yields Latin `a` followed by U+0301,
which is no longer NFKC-normal; the second pass composes it to
U+00E1, a different string. -/
theorem normalize_not_idempotent :
    normalizeText nfkcModel (normalizeText nfkcModel ['а', '́'])
      ≠ normalizeText nfkcModel ['а', '́'] := by decide

/-- Claim C7, as amended: normalization is idempotent exactly on
inputs whose first-pass output is itself an NFKC fixed point; the
homoglyph substitution alone never breaks idempotence, because no
substitution target is itself a substituted character. -/
theorem normalize_idempotent_on_nfkc_fixed (nfkc : List Char → List Char)
    (s : List Char)
    (h : nfkc (normalizeText nfkc s) = normalizeText nfkc s) :
    normalizeText nfkc (normalizeText nfkc s) = normalizeText nfkc s := by
  conv_lhs => rw [normalizeText, h]
  rw [normalizeText, List.map_map]
  exact List.map_congr_left (fun a _ => substChar_idem a)

/-- Witness for the amended C7 at a concrete input: with an identity
normalization step (the input and its image are NFKC-normal), a
homoglyph input reaches a fixed point after one pass. -/
theorem normalize_idempotent_on_nfkc_fixed_witness :
    normalizeText (fun l => l) (normalizeText (fun l => l) ['а'])
      = normalizeText (fun l => l) ['а'] :=
  normalize_idempotent_on_nfkc_fixed (fun l => l) ['а'] rfl

/-- Counterexample to claim C8 as stated: for a fixed user, two
resolved addresses can be charged different trade sizes — the amount
depends on whether the address contains the substring `pump`. -/
theorem amount_depends_on_address :
    getAmount ("Apump".toList) ("someuser".toList)
      ≠ getAmount ("A1".toList) ("someuser".toList) := by decide

/-- Claim C8, as amended: the trade size is determined by the user
identifier together with the single bit of whether the resolved
address contains `pump`; two addresses agreeing on that bit always
yield the same amount for the same user. -/
theorem amount_determined_by_user_and_pump (user a b : List Char)
    (h : containsSub pumpNeedle a = containsSub pumpNeedle b) :
    getAmount a user = getAmount b user := by
  unfold getAmount
  rw [h]

/-- Witness for the amended C8 at concrete inputs: two different
pump-suffixed addresses get the same amount for the special user. -/
theorem amount_determined_by_user_and_pump_witness :
    getAmount ("Xpumpy".toList) daniil = getAmount ("zzpump".toList) daniil :=
  amount_determined_by_user_and_pump daniil ("Xpumpy".toList) ("zzpump".toList)
    (by decide)

/-- Claim C9: whitespace inside the `text` field is erased before
normalization and scanning (inserting a whitespace character anywhere
in that field never changes the combined text, so an address split
across spaces or newlines is reassembled), while whitespace in the
`full_text` field and in the OCR text is preserved (counted
occurrences of any non-space whitespace character pass through to the
combined text). -/
theorem text_field_whitespace_stripped (w : Char) :
    (∀ (nfkc : List Char → List Char) (ft tf1 tf2 : List Char)
        (imgU imgT : Option (List Char)), isJsWhitespace w = true →
      combinedTextOf nfkc ft (tf1 ++ w :: tf2) imgU imgT
        = combinedTextOf nfkc ft (tf1 ++ tf2) imgU imgT) ∧
    (∀ (ft tf imgT uurl : List Char), isJsWhitespace w = true → w ≠ ' ' →
      (combinedTextOf (fun l => l) ft tf (some uurl) (some imgT)).count w
        = ft.count w + imgT.count w) := by
  constructor
  · intro nfkc ft tf1 tf2 imgU imgT hw
    have hstrip := stripWhitespace_erase_ws tf1 tf2 w hw
    cases imgU <;> cases imgT <;> simp [combinedTextOf, hstrip]
  · intro ft tf imgT uurl hw hsp
    have hne2 : ¬(' ' = w) := fun hq => hsp hq.symm
    have h1 : (normalizeText (fun l => l) (ft ++ ' ' :: stripWhitespace tf)).count w
        = ft.count w := by
      show ((ft ++ ' ' :: stripWhitespace tf).map substChar).count w = ft.count w
      rw [count_map_substChar w hw, List.count_append, List.count_cons,
        count_stripWhitespace w hw]
      simp [beq_iff_eq, hne2]
    have h2 : (' ' :: normalizeText (fun l => l) imgT).count w = imgT.count w := by
      show (' ' :: imgT.map substChar).count w = imgT.count w
      rw [List.count_cons, count_map_substChar w hw]
      simp [beq_iff_eq, hne2]
    show (normalizeText (fun l => l) (ft ++ ' ' :: stripWhitespace tf) ++
        ' ' :: normalizeText (fun l => l) imgT).count w = ft.count w + imgT.count w
    rw [List.count_append, h1, h2]

/-- Witness for C9 at a concrete input: a newline inside the `text`
field is erased from the combined text. -/
theorem text_field_whitespace_stripped_witness :
    combinedTextOf (fun l => l) [] (['a'] ++ '\n' :: ['b']) none none
      = combinedTextOf (fun l => l) [] (['a'] ++ ['b']) none none :=
  (text_field_whitespace_stripped '\n').1 (fun l => l) [] ['a'] ['b'] none none
    (by decide)

/-- Counterexample to claim C1 as stated: for an input whose combined
text yields a scanner match that survives validation, a chain oracle
on which every metadata lookup fails makes `Promise.any` reject; the
rejection reaches the top-level catch and the caller receives the
error response, not a benign success-shaped one. -/
theorem resolver_all_fail_error_response_concrete :
    0 < (findMatches (combinedTextOf (fun l => l) ones32 [] none none)).length ∧
    (∀ a, getTokenInfo (fun _ => none) a = none) ∧
    handleWebhook (fun l => l) (fun _ => none) true [] [] ones32 none none
      = WebhookResponse.errorResp errMsg :=
  ⟨by decide, fun _ => rfl, by decide⟩

/-- Claim C1, as amended: when scanner matches exist but none survives
validation and block-list filtering, the caller receives the benign
success-shaped no-valid-addresses response; when at least one
validated address exists and every metadata lookup fails, the
`Promise.any` rejection reaches the top-level catch and the caller
receives the error response. -/
theorem resolution_outcome_responses (nfkc : List Char → List Char)
    (chain : List Char → Option MintInfo) (txOk : Bool)
    (user textField fulltext : List Char)
    (imageUrl imageText : Option (List Char)) :
    (0 < (findMatches (combinedTextOf nfkc fulltext textField imageUrl imageText)).length →
      validAddressesOf (combinedTextOf nfkc fulltext textField imageUrl imageText) = [] →
      handleWebhook nfkc chain txOk user textField fulltext imageUrl imageText
        = WebhookResponse.success noValidMsg none) ∧
    (validAddressesOf (combinedTextOf nfkc fulltext textField imageUrl imageText) ≠ [] →
      (∀ a ∈ validAddressesOf (combinedTextOf nfkc fulltext textField imageUrl imageText),
        getTokenInfo chain a = none) →
      handleWebhook nfkc chain txOk user textField fulltext imageUrl imageText
        = WebhookResponse.errorResp errMsg) := by
  constructor
  · intro hm hv
    unfold handleWebhook
    rw [if_pos hm, hv]
    simp
  · intro hv hnone
    have hlen : 0 < (validAddressesOf
        (combinedTextOf nfkc fulltext textField imageUrl imageText)).length :=
      List.length_pos.2 hv
    have hfm : findMatches (combinedTextOf nfkc fulltext textField imageUrl imageText)
        ≠ [] := by
      intro hnil
      apply hv
      rw [validAddressesOf, hnil]
      rfl
    have hm : 0 < (findMatches
        (combinedTextOf nfkc fulltext textField imageUrl imageText)).length :=
      List.length_pos.2 hfm
    have hall : ∀ x ∈ launchedLookups chain
        (validAddressesOf (combinedTextOf nfkc fulltext textField imageUrl imageText)),
        x = none := by
      intro x hx
      rw [launchedLookups, List.mem_map] at hx
      obtain ⟨a, ha, rfl⟩ := hx
      exact hnone a ha
    unfold handleWebhook
    rw [if_pos hm, if_pos hlen, promiseAny_eq_none _ hall]

/-- Witness for the amended C1 at a concrete input: one validated
address, an all-failing chain oracle, and the error response. -/
theorem resolution_outcome_responses_witness :
    handleWebhook (fun l => l) (fun _ => none) true [] [] ones31two none none
      = WebhookResponse.errorResp errMsg :=
  (resolution_outcome_responses (fun l => l) (fun _ => none) true [] [] ones31two
    none none).2 (by decide) (fun _ _ => rfl)

/-- Claim C10: whenever the handler sends the final success response
(the one carrying a `source` field), that field is `"text and image"`
exactly when the payload carried an image URL — independently of
whether image download or OCR actually succeeded (`imageText` is
arbitrary) — and `"text only"` otherwise. -/
theorem source_field_reflects_image_url (nfkc : List Char → List Char)
    (chain : List Char → Option MintInfo) (txOk : Bool)
    (user textField fulltext : List Char)
    (imageUrl imageText : Option (List Char)) (msg src : List Char)
    (h : handleWebhook nfkc chain txOk user textField fulltext imageUrl imageText
      = WebhookResponse.success msg (some src)) :
    src = (if imageUrl.isSome then srcTextAndImage else srcTextOnly) := by
  unfold handleWebhook at h
  split at h
  · split at h
    · split at h
      · exact absurd h (by simp)
      · split at h
        · simp only [WebhookResponse.success.injEq, Option.some.injEq] at h
          exact h.2.symm
        · exact absurd h (by simp)
    · simp only [WebhookResponse.success.injEq] at h
      exact absurd h.2 (by simp)
  · simp only [WebhookResponse.success.injEq, Option.some.injEq] at h
    exact h.2.symm

/-- Witness for C10 at a concrete input: an image URL is present but
image processing failed (`imageText = none`), and the success response
still reports `"text and image"`. -/
theorem source_field_reflects_image_url_witness :
    srcTextAndImage
      = (if (some ([] : List Char)).isSome then srcTextAndImage else srcTextOnly) :=
  source_field_reflects_image_url (fun l => l) (fun _ => none) true [] [] []
    (some []) none processedMsg srcTextAndImage (by decide)
